import Mathlib

/-!
Verification of `rlpytorch/methods/actor_critic.py` (class `ActorCritic`,
method `update`).

The coordinator `update` is shallowly embedded as a pure, trace-producing
interpreter.  Tensors are modelled as a list of per-batch-instance rationals
together with two flags: whether the tensor still carries a gradient path
(`grad`, cleared by `.data` / detach) and its device placement (`is_cuda`).
Shapes beyond the batch dimension are not modelled, so `squeeze` is the
identity on the payload.

The external collaborators (the model forward, the policy-gradient objective
`pg.feed` and the value matcher `value_matcher.feed`) are abstract fallible
functions supplied as parameters; their calls are recorded as events.  The
`DiscountedReward` estimator and the `add_err` utility live in repository
files that are not part of the analysed sources, so they are modelled from
the specification (see their doc comments).

Every observable action of `update` (collaborator calls, `setR`,
`err.backward()`, the final `stats["cost"].feed(...)`) is recorded in an
event trace, and exceptions are modelled with `Except`: a collaborator
returning `.error e` corresponds to the Python call raising, and the
distinguished errors correspond to the `KeyError` of a missing `value_node`,
the `IndexError` of an out-of-range timestep, the `AttributeError` of
`err.backward()` on `None`, and the `TypeError` of subscripting the `None`
sentinel `tot_err`.
-/

/-- Decidable equality on `Except`, so that concrete runs of the embedded
coordinator can be checked by `decide`. -/
instance {α β : Type} [DecidableEq α] [DecidableEq β] :
    DecidableEq (Except α β) := fun x y =>
  match x, y with
  | .ok a, .ok b =>
    if h : a = b then .isTrue (by rw [h])
    else .isFalse (fun hh => h (Except.ok.inj hh))
  | .error a, .error b =>
    if h : a = b then .isTrue (by rw [h])
    else .isFalse (fun hh => h (Except.error.inj hh))
  | .ok _, .error _ => .isFalse (fun hh => Except.noConfusion hh)
  | .error _, .ok _ => .isFalse (fun hh => Except.noConfusion hh)

/-- A tensor: per-batch-instance numeric entries, a flag recording whether the
value still carries a gradient path, and its device placement (`is_cuda`). -/
structure Tensor where
  data : List ℚ
  grad : Bool
  is_cuda : Bool
deriving DecidableEq, Repr

/-- Python `x.data` (detach): same numbers, gradient path dropped. -/
def Tensor.detach (x : Tensor) : Tensor := { x with grad := false }

/-- Python `x.squeeze()`: shape-only operation, identity in this model
(only the batch dimension is represented). -/
def Tensor.squeeze (x : Tensor) : Tensor := x

/-- Python `x.cuda()`: move to the accelerator. -/
def Tensor.cuda (x : Tensor) : Tensor := { x with is_cuda := true }

/-- Pointwise tensor addition; the result carries a gradient path iff either
operand does, and takes the left operand's placement. -/
def Tensor.add (x y : Tensor) : Tensor :=
  { data := List.zipWith (· + ·) x.data y.data
    grad := x.grad || y.grad
    is_cuda := x.is_cuda }

/-- Pointwise tensor subtraction, same flag conventions as `Tensor.add`. -/
def Tensor.sub (x y : Tensor) : Tensor :=
  { data := List.zipWith (· - ·) x.data y.data
    grad := x.grad || y.grad
    is_cuda := x.is_cuda }

/-- Python `torch.zeros_like(x)`. -/
def Tensor.zeros_like (x : Tensor) : Tensor :=
  { data := x.data.map (fun _ => 0)
    grad := false
    is_cuda := x.is_cuda }

/-- The `cudaify` lambda of `update`: move `x` to the accelerator iff the
placement sensed from the terminal-step value tensor was the accelerator. -/
def cudaify (isCuda : Bool) (x : Tensor) : Tensor :=
  if isCuda then x.cuda else x

/-- A model output: the named tensor mapping returned by the model forward. -/
abbrev ModelOut := List (String × Tensor)

/-- The trajectory batch: `s` (states, opaque; only its length `T` is read),
`r` (per-step reward tensors) and `terminal` (per-step terminal flags). -/
structure Batch where
  s : List Tensor
  r : List Tensor
  terminal : List Tensor
deriving DecidableEq, Repr

/-- Observable events of one `update` call, in program order:
`modelCall t` is the model forward on `batch.hist(t)` (the history view is
identified by its timestep), `setR` / `drFeed` are the calls into the
discounted-reward estimator with the arguments as passed (`drFeed` also
records at which timestep `t` of the loop it was issued), `pgFeed` and
`vmFeed` are the calls into the policy-gradient objective and the value
matcher, `backward` is `err.backward()` on the combined per-step error, and
`statFeed name v` is `stats[name].feed(v)` issued by the coordinator. -/
inductive Event where
  | modelCall (t : Nat)
  | setR (v : Tensor)
  | drFeed (t : Nat) (r terminal : Tensor)
  | pgFeed (adv : Tensor) (sc : ModelOut) (t : Nat)
  | vmFeed (input : List (String × Tensor))
  | backward (err : Tensor)
  | statFeed (name : String) (v : ℚ)
deriving DecidableEq, Repr

/-- Errors `update` can propagate: a collaborator exception (`collab`),
`KeyError` for a missing `value_node` output, `IndexError` for an
out-of-range timestep or empty first dimension, `AttributeError` for
`err.backward()` when `err` is `None`, and `TypeError` for subscripting the
`None` sentinel `tot_err`. -/
inductive UErr (ε : Type) where
  | collab (e : ε)
  | keyError
  | indexError
  | noneBackward
  | noneSubscript
deriving DecidableEq, Repr

/-- The abstract collaborators of the coordinator: `model t` is the model
forward on `batch.hist(t)`; `pgFeed adv sc t` is `pg.feed(adv, state_curr,
bht, stats, old_pi_s=bht)` with the history view `bht` identified by its
timestep `t` (it is passed both as `bht` and as `old_pi_s`); `vmFeed input`
is `value_matcher.feed(input, stats)`.  Each may raise (`.error`), and the
loss-returning feeds may return `None` (`.ok none`). -/
structure Collab (ε : Type) where
  model : Nat → Except ε ModelOut
  pgFeed : Tensor → ModelOut → Nat → Except ε (Option Tensor)
  vmFeed : List (String × Tensor) → Except ε (Option Tensor)

/-- Modelled from the spec: `add_err` from `rlpytorch/methods/utils.py` is not
among the analysed sources; per the spec the per-step policy-gradient and
value-matching losses are "accumulated into the same combined per-step
error", with `None` standing for "no error yet". -/
def add_err : Option Tensor → Option Tensor → Option Tensor
  | none, e => e
  | some o, none => some o
  | some o, some e => some (o.add e)

/-- Modelled from the spec: `DiscountedReward.feed` from
`rlpytorch/methods/discounted_reward.py` is not among the analysed sources;
per the spec it "applies one step of reward + discount + terminal-masking
(reset-to-zero-bootstrap at episode boundaries) and returns the updated
return": `R' = r + discount * R * (1 - terminal)` per batch instance. -/
def DiscountedReward.feed (discount : ℚ) (R r terminal : Tensor) : Tensor :=
  { data :=
      List.zipWith (fun p ti => p.1 + discount * p.2 * (1 - ti))
        (r.data.zip R.data) terminal.data
    grad := r.grad || R.grad || terminal.grad
    is_cuda := r.is_cuda }

/-- One iteration of the backward loop of `update` at timestep `t`, given the
estimator's current return state `R` and the accumulator `tot` (`none` is the
Python `None` sentinel).  Returns the events of the iteration and either the
propagated error or the new `(R, tot_err)` pair.  Mirrors the loop body:
model forward, `value_node` lookup and squeeze, reward/terminal indexing
(reward routed through `cudaify`, terminal passed as is), discounted-reward
feed, `pg.feed(R - V.data, state_curr, bht, stats, old_pi_s=bht)`,
`value_matcher.feed({value_node: V, "target": R}, stats)`, `err.backward()`,
then lazy allocation of `tot_err` and `tot_err += err.data`. -/
def iterStep {ε : Type} (C : Collab ε) (value_node : String) (discount : ℚ)
    (isCuda : Bool) (b : Batch) (t : Nat) (R : Tensor) (tot : Option Tensor) :
    List Event × Except (UErr ε) (Tensor × Tensor) :=
  match C.model t with
  | .error e => ([.modelCall t], .error (.collab e))
  | .ok sc =>
    match sc.lookup value_node with
    | none => ([.modelCall t], .error .keyError)
    | some vt =>
      match b.r[t]? with
      | none => ([.modelCall t], .error .indexError)
      | some rt =>
        match b.terminal[t]? with
        | none => ([.modelCall t], .error .indexError)
        | some termt =>
          let V := vt.squeeze
          let rIn := cudaify isCuda rt
          let R2 := DiscountedReward.feed discount R rIn termt
          let adv := R2.sub V.detach
          match C.pgFeed adv sc t with
          | .error e =>
            ([.modelCall t, .drFeed t rIn termt, .pgFeed adv sc t],
             .error (.collab e))
          | .ok pe =>
            match C.vmFeed [(value_node, V), ("target", R2)] with
            | .error e =>
              ([.modelCall t, .drFeed t rIn termt, .pgFeed adv sc t,
                .vmFeed [(value_node, V), ("target", R2)]],
               .error (.collab e))
            | .ok ve =>
              match add_err (add_err none pe) ve with
              | none =>
                ([.modelCall t, .drFeed t rIn termt, .pgFeed adv sc t,
                  .vmFeed [(value_node, V), ("target", R2)]],
                 .error .noneBackward)
              | some err =>
                let tot2 : Tensor :=
                  match tot with
                  | none => (Tensor.zeros_like err.detach).add err.detach
                  | some te => te.add err.detach
                ([.modelCall t, .drFeed t rIn termt, .pgFeed adv sc t,
                  .vmFeed [(value_node, V), ("target", R2)], .backward err],
                 .ok (R2, tot2))

/-- The backward loop `for t in range(T-2, -1, -1)` of `update`, run on an
explicit list of timesteps.  Threads the batch (read-only in the source)
through to the result, accumulates the event trace, and stops at the first
error, exactly as a raised exception would abort the Python loop. -/
def loopSteps {ε : Type} (C : Collab ε) (value_node : String) (discount : ℚ)
    (isCuda : Bool) :
    List Nat → Batch → Tensor → Option Tensor →
      List Event × Batch × Except (UErr ε) (Tensor × Option Tensor)
  | [], b, R, tot => ([], b, .ok (R, tot))
  | t :: ts, b, R, tot =>
    match iterStep C value_node discount isCuda b t R tot with
    | (evs, .error e) => (evs, b, .error e)
    | (evs, .ok (R2, tot2)) =>
      let rest := loopSteps C value_node discount isCuda ts b R2 (some tot2)
      (evs ++ rest.1, rest.2.1, rest.2.2)

/-- `ActorCritic.update(mi, batch, stats)`.  `T = batch["s"].size(0)`; the
seed forward on `batch.hist(T-1)` senses the device placement of the
`value_node` output, `setR` initialises the estimator with its detached
squeezed value (overwriting whatever estimator state `dr0` was left from a
previous call), the loop runs over `t = T-2, ..., 0`, and finally
`stats["cost"].feed(tot_err[0] / (T - 1))` is issued.  The result carries
the post-call batch (the source never writes to it) and either the
propagated error or the estimator's final state. -/
def update {ε : Type} (C : Collab ε) (value_node : String) (discount : ℚ)
    (batch : Batch) (dr0 : Option Tensor) :
    List Event × Batch × Except (UErr ε) (Option Tensor) :=
  let T := batch.s.length
  match C.model (T - 1) with
  | .error e => ([.modelCall (T - 1)], batch, .error (.collab e))
  | .ok state_curr =>
    match state_curr.lookup value_node with
    | none => ([.modelCall (T - 1)], batch, .error .keyError)
    | some v0 =>
      let isCuda := v0.is_cuda
      let R0 := v0.squeeze.detach
      match loopSteps C value_node discount isCuda
          ((List.range (T - 1)).reverse) batch R0 none with
      | (evs, b2, .error e) =>
        (.modelCall (T - 1) :: .setR R0 :: evs, b2, .error e)
      | (evs, b2, .ok (Rf, totf)) =>
        match totf with
        | none =>
          (.modelCall (T - 1) :: .setR R0 :: evs, b2, .error .noneSubscript)
        | some te =>
          match te.data.head? with
          | none =>
            (.modelCall (T - 1) :: .setR R0 :: evs, b2, .error .indexError)
          | some c0 =>
            (.modelCall (T - 1) :: .setR R0 ::
               (evs ++ [.statFeed "cost" (c0 / ((T : ℚ) - 1))]),
             b2, .ok (some Rf))

/-- The data of one completed loop iteration (used to describe successful
traces): timestep `t`, model output `sc`, squeezed value `V`, the reward and
terminal tensors as fed to the return estimator (`rIn`, `termIn`), the
updated return `R`, the two collaborator losses `pe` and `ve`, and the
combined per-step error `err`. -/
structure Step (ε : Type) where
  t : Nat
  sc : ModelOut
  V : Tensor
  rIn : Tensor
  termIn : Tensor
  R : Tensor
  pe : Option Tensor
  ve : Option Tensor
  err : Tensor

/-- The events emitted by one completed loop iteration, in program order. -/
def stepEvents {ε : Type} (value_node : String) (s : Step ε) : List Event :=
  [.modelCall s.t, .drFeed s.t s.rIn s.termIn,
   .pgFeed (s.R.sub s.V.detach) s.sc s.t,
   .vmFeed [(value_node, s.V), ("target", s.R)],
   .backward s.err]

/-- A step is consistent with the collaborators and the batch: the model was
called at `s.t` and returned `s.sc`, `s.V` is the squeezed `value_node`
output, the fed reward is the indexed reward routed through `cudaify` while
the fed terminal flag is the indexed terminal tensor as is, and the two
losses combine via `add_err` into the stepped-backward error `s.err`. -/
def StepOk {ε : Type} (C : Collab ε) (value_node : String) (isCuda : Bool)
    (b : Batch) (s : Step ε) : Prop :=
  C.model s.t = .ok s.sc ∧
  (∃ vt, s.sc.lookup value_node = some vt ∧ s.V = vt.squeeze) ∧
  (∃ rt, b.r[s.t]? = some rt ∧ s.rIn = cudaify isCuda rt) ∧
  b.terminal[s.t]? = some s.termIn ∧
  C.pgFeed (s.R.sub s.V.detach) s.sc s.t = .ok s.pe ∧
  C.vmFeed [(value_node, s.V), ("target", s.R)] = .ok s.ve ∧
  add_err (add_err none s.pe) s.ve = some s.err

/-- Concatenated events of a list of completed loop iterations. -/
def eventsOf {ε : Type} (value_node : String) : List (Step ε) → List Event
  | [] => []
  | s :: ss => stepEvents value_node s ++ eventsOf value_node ss

/-- Is this event an `err.backward()` call? -/
def Event.isBackward : Event → Bool
  | .backward _ => true
  | _ => false

/-- Is this event a call to the return estimator's `feed`? -/
def Event.isDrFeed : Event → Bool
  | .drFeed _ _ _ => true
  | _ => false

/-- Is this event a call to the policy-gradient objective's `feed`? -/
def Event.isPgFeed : Event → Bool
  | .pgFeed _ _ _ => true
  | _ => false

/-- Is this event a `setR` call on the return estimator? -/
def Event.isSetR : Event → Bool
  | .setR _ => true
  | _ => false

/-- Is this event a `stats["cost"].feed(...)`? -/
def Event.isCostFeed : Event → Bool
  | .statFeed n _ => decide (n = "cost")
  | _ => false

/-- The timesteps of the model forward calls of a trace, in order. -/
def modelCalls (evs : List Event) : List Nat :=
  evs.filterMap fun e =>
    match e with
    | .modelCall t => some t
    | _ => none

/-- The first-batch-instance entries of the errors stepped backward, in
order (one per `err.backward()` whose error has a first instance). -/
def backErrHeads (evs : List Event) : List ℚ :=
  evs.filterMap fun e =>
    match e with
    | .backward err => err.data.head?
    | _ => none

/-- The values fed to `stats["cost"]`, in order. -/
def costs (evs : List Event) : List ℚ :=
  evs.filterMap fun e =>
    match e with
    | .statFeed n q => if n = "cost" then some q else none
    | _ => none

/-- Scans a trace and checks, for every policy-gradient call, that it is
immediately followed by the matching value-matcher call and that the two are
related as the source relates them: the advantage handed to `pg.feed` is
`R - V.data`, i.e. the value-matcher's target return minus the detached
squeezed value, it carries a gradient path only if `R` does (the detached
`V` contributes none), and the value matcher receives the undetached `V`
under the `value_node` key together with `target = R`. -/
def advObligation (value_node : String) : List Event → Bool
  | .pgFeed adv _ _ :: .vmFeed [(n1, V), (n2, R)] :: rest =>
    decide (n1 = value_node) && decide (n2 = "target") &&
    decide (adv = R.sub V.detach) && decide (adv.grad = R.grad) &&
    advObligation value_node rest
  | .pgFeed _ _ _ :: _ => false
  | _ :: rest => advObligation value_node rest
  | [] => true

/-- Checks that every return-estimator `feed` call of a trace received the
timestep-`t` reward tensor routed through the placement decision `isCuda`
(the `cudaify` lambda) and the timestep-`t` terminal tensor as is. -/
def drFeedRouting (isCuda : Bool) (b : Batch) : List Event → Bool
  | [] => true
  | .drFeed t r' term' :: rest =>
    decide (b.r[t]?.map (cudaify isCuda) = some r') &&
    decide (b.terminal[t]? = some term') &&
    drFeedRouting isCuda b rest
  | _ :: rest => drFeedRouting isCuda b rest

/-- Checks that a (loop-region) trace is a sequence of complete iteration
blocks — model forward, estimator feed, policy-gradient feed, value-matcher
feed, then immediately the backward pass — followed only by the single final
cost feed: gradient propagation for step `t` happens inside iteration `t`,
before the next iteration's forward pass, and is never deferred past the
loop. -/
def loopBlocks : List Event → Bool
  | .modelCall _ :: .drFeed _ _ _ :: .pgFeed _ _ _ :: .vmFeed _ ::
      .backward _ :: rest => loopBlocks rest
  | [.statFeed n _] => decide (n = "cost")
  | _ => false

/-- Does this `update` result report the `TypeError` of subscripting the
`None` sentinel `tot_err`? -/
def isNoneSubscriptRes {ε : Type} : Except (UErr ε) (Option Tensor) → Bool
  | .error .noneSubscript => true
  | _ => false

/-- A one-instance tensor with the given entry and flags (used for the
concrete runs below). -/
def exT (q : ℚ) (g c : Bool) : Tensor := ⟨[q], g, c⟩

/-- Concrete collaborators for a successful host-resident run: the model
exposes a value head "v" (value 4 at the terminal step, 2 elsewhere), and
the two objectives return fixed losses. -/
def exC : Collab Unit :=
  { model := fun t => .ok [("v", exT (if t = 1 then 4 else 2) true false)]
    pgFeed := fun _ _ _ => .ok (some (exT 5 true false))
    vmFeed := fun _ => .ok (some (exT 7 true false)) }

/-- A two-step trajectory batch (`T = 2`), reward 1 at step 0. -/
def exBatch : Batch :=
  { s := [exT 0 false false, exT 0 false false]
    r := [exT 1 false false, exT 0 false false]
    terminal := [exT 0 false false, exT 1 false false] }

/-- The trace of the successful run of `update` on `exC` and `exBatch` with
discount 1/2: seed forward, `setR 4`, then one loop iteration at `t = 0`
(return `R = 1 + (1/2)*4 = 3`, advantage `3 - 2 = 1`, combined error
`5 + 7 = 12`), and the cost feed `12 / (2 - 1) = 12`. -/
def exTrace : List Event :=
  [.modelCall 1, .setR (exT 4 false false), .modelCall 0,
   .drFeed 0 (exT 1 false false) (exT 0 false false),
   .pgFeed (exT 1 false false) [("v", exT 2 true false)] 0,
   .vmFeed [("v", exT 2 true false), ("target", exT 3 false false)],
   .backward (exT 12 true false), .statFeed "cost" 12]

/-- A single-step batch (`T = 1`) for the failure run. -/
def exBatch1 : Batch :=
  { s := [exT 0 false false]
    r := [exT 1 false false]
    terminal := [exT 0 false false] }

/-- Collaborators identical to `exC` except that the value matcher raises. -/
def exCfail : Collab Unit :=
  { model := fun t => .ok [("v", exT (if t = 1 then 4 else 2) true false)]
    pgFeed := fun _ _ _ => .ok (some (exT 5 true false))
    vmFeed := fun _ => .error () }

/-- The trace of the aborted run of `update` on `exCfail`: everything up to
and including the failing value-matcher call. -/
def exFailTrace : List Event :=
  [.modelCall 1, .setR (exT 4 false false), .modelCall 0,
   .drFeed 0 (exT 1 false false) (exT 0 false false),
   .pgFeed (exT 1 false false) [("v", exT 2 true false)] 0,
   .vmFeed [("v", exT 2 true false), ("target", exT 3 false false)]]

/-- Collaborators identical to `exC` except that the model output resides on
the accelerator, so the sensed placement is `is_cuda = true`. -/
def exCg : Collab Unit :=
  { model := fun t => .ok [("v", exT (if t = 1 then 4 else 2) true true)]
    pgFeed := fun _ _ _ => .ok (some (exT 5 true false))
    vmFeed := fun _ => .ok (some (exT 7 true false)) }

/-- The trace of the successful accelerator run: the reward fed to the
return estimator was moved to the accelerator (`exT 1 false true`) but the
terminal flag was fed host-resident (`exT 0 false false`), unmoved. -/
def exCgTrace : List Event :=
  [.modelCall 1, .setR (exT 4 false true), .modelCall 0,
   .drFeed 0 (exT 1 false true) (exT 0 false false),
   .pgFeed (exT 1 false true) [("v", exT 2 true true)] 0,
   .vmFeed [("v", exT 2 true true), ("target", exT 3 false true)],
   .backward (exT 12 true false), .statFeed "cost" 12]

theorem iterStep_ok {ε : Type} {C : Collab ε} {value_node : String}
    {discount : ℚ} {isCuda : Bool} {b : Batch} {t : Nat} {R : Tensor}
    {tot : Option Tensor} {evs : List Event} {R2 tot2 : Tensor}
    (h : iterStep C value_node discount isCuda b t R tot =
      (evs, .ok (R2, tot2))) :
    ∃ s : Step ε, evs = stepEvents value_node s ∧ s.t = t ∧
      StepOk C value_node isCuda b s ∧
      s.R = DiscountedReward.feed discount R s.rIn s.termIn ∧ R2 = s.R ∧
      (tot = none →
        tot2 = (Tensor.zeros_like s.err.detach).add s.err.detach) ∧
      (∀ te, tot = some te → tot2 = te.add s.err.detach) := by
  cases hm : C.model t with
  | error e => simp [iterStep, hm] at h
  | ok sc =>
    cases hl : sc.lookup value_node with
    | none => simp [iterStep, hm, hl] at h
    | some vt =>
      cases hr : b.r[t]? with
      | none => simp [iterStep, hm, hl, hr] at h
      | some rt =>
        cases hterm : b.terminal[t]? with
        | none => simp [iterStep, hm, hl, hr, hterm] at h
        | some termt =>
          cases hpg : C.pgFeed
              ((DiscountedReward.feed discount R (cudaify isCuda rt)
                termt).sub vt.squeeze.detach) sc t with
          | error e => simp [iterStep, hm, hl, hr, hterm, hpg] at h
          | ok pe =>
            cases hvm : C.vmFeed [(value_node, vt.squeeze),
                ("target", DiscountedReward.feed discount R
                  (cudaify isCuda rt) termt)] with
            | error e => simp [iterStep, hm, hl, hr, hterm, hpg, hvm] at h
            | ok ve =>
              cases hae : add_err (add_err none pe) ve with
              | none =>
                simp [iterStep, hm, hl, hr, hterm, hpg, hvm, hae] at h
              | some err =>
                simp only [iterStep, hm, hl, hr, hterm, hpg, hvm, hae,
                  Prod.mk.injEq, Except.ok.injEq] at h
                obtain ⟨hevs, hR2, htot2⟩ := h
                refine ⟨⟨t, sc, vt.squeeze, cudaify isCuda rt, termt,
                  DiscountedReward.feed discount R (cudaify isCuda rt) termt,
                  pe, ve, err⟩, ?_, rfl,
                  ⟨hm, ⟨vt, hl, rfl⟩, ⟨rt, hr, rfl⟩, hterm, hpg, hvm, hae⟩,
                  rfl, ?_, ?_, ?_⟩
                · exact hevs.symm
                · exact hR2.symm
                · intro htot
                  subst htot
                  exact htot2.symm
                · intro te htot
                  subst htot
                  exact htot2.symm

theorem iterStep_error {ε : Type} {C : Collab ε} {value_node : String}
    {discount : ℚ} {isCuda : Bool} {b : Batch} {t : Nat} {R : Tensor}
    {tot : Option Tensor} {evs : List Event} {e : UErr ε}
    (h : iterStep C value_node discount isCuda b t R tot = (evs, .error e)) :
    (∀ n q, Event.statFeed n q ∉ evs) ∧ (∀ w, Event.setR w ∉ evs) ∧
    e ≠ .noneSubscript ∧
    (∀ e0, e = .collab e0 →
      (∃ t', C.model t' = .error e0) ∨
      (∃ adv sc t', C.pgFeed adv sc t' = .error e0) ∨
      (∃ inp, C.vmFeed inp = .error e0)) := by
  cases hm : C.model t with
  | error e1 =>
    simp only [iterStep, hm, Prod.mk.injEq, Except.error.injEq] at h
    obtain ⟨hevs, he⟩ := h
    subst hevs
    refine ⟨by simp, by simp, by simp [← he], ?_⟩
    intro e0 he0
    rw [← he] at he0
    exact Or.inl ⟨t, by rw [hm, UErr.collab.inj he0]⟩
  | ok sc =>
    cases hl : sc.lookup value_node with
    | none =>
      simp only [iterStep, hm, hl, Prod.mk.injEq, Except.error.injEq] at h
      obtain ⟨hevs, he⟩ := h
      subst hevs
      exact ⟨by simp, by simp, by simp [← he], fun e0 he0 => by
        rw [← he] at he0; exact absurd he0 (by simp)⟩
    | some vt =>
      cases hr : b.r[t]? with
      | none =>
        simp only [iterStep, hm, hl, hr, Prod.mk.injEq,
          Except.error.injEq] at h
        obtain ⟨hevs, he⟩ := h
        subst hevs
        exact ⟨by simp, by simp, by simp [← he], fun e0 he0 => by
          rw [← he] at he0; exact absurd he0 (by simp)⟩
      | some rt =>
        cases hterm : b.terminal[t]? with
        | none =>
          simp only [iterStep, hm, hl, hr, hterm, Prod.mk.injEq,
            Except.error.injEq] at h
          obtain ⟨hevs, he⟩ := h
          subst hevs
          exact ⟨by simp, by simp, by simp [← he], fun e0 he0 => by
            rw [← he] at he0; exact absurd he0 (by simp)⟩
        | some termt =>
          cases hpg : C.pgFeed
              ((DiscountedReward.feed discount R (cudaify isCuda rt)
                termt).sub vt.squeeze.detach) sc t with
          | error e1 =>
            simp only [iterStep, hm, hl, hr, hterm, hpg, Prod.mk.injEq,
              Except.error.injEq] at h
            obtain ⟨hevs, he⟩ := h
            subst hevs
            refine ⟨by simp, by simp, by simp [← he], ?_⟩
            intro e0 he0
            rw [← he] at he0
            exact Or.inr (Or.inl ⟨_, _, _, by rw [hpg, UErr.collab.inj he0]⟩)
          | ok pe =>
            cases hvm : C.vmFeed [(value_node, vt.squeeze),
                ("target", DiscountedReward.feed discount R
                  (cudaify isCuda rt) termt)] with
            | error e1 =>
              simp only [iterStep, hm, hl, hr, hterm, hpg, hvm,
                Prod.mk.injEq, Except.error.injEq] at h
              obtain ⟨hevs, he⟩ := h
              subst hevs
              refine ⟨by simp, by simp, by simp [← he], ?_⟩
              intro e0 he0
              rw [← he] at he0
              exact Or.inr (Or.inr ⟨_, by rw [hvm, UErr.collab.inj he0]⟩)
            | ok ve =>
              cases hae : add_err (add_err none pe) ve with
              | none =>
                simp only [iterStep, hm, hl, hr, hterm, hpg, hvm, hae,
                  Prod.mk.injEq, Except.error.injEq] at h
                obtain ⟨hevs, he⟩ := h
                subst hevs
                exact ⟨by simp, by simp, by simp [← he], fun e0 he0 => by
                  rw [← he] at he0; exact absurd he0 (by simp)⟩
              | some err =>
                simp [iterStep, hm, hl, hr, hterm, hpg, hvm, hae] at h

theorem loopSteps_batch {ε : Type} (C : Collab ε) (value_node : String)
    (discount : ℚ) (isCuda : Bool) :
    ∀ (ts : List Nat) (b : Batch) (R : Tensor) (tot : Option Tensor),
      (loopSteps C value_node discount isCuda ts b R tot).2.1 = b := by
  intro ts
  induction ts with
  | nil => intro b R tot; rfl
  | cons t ts ih =>
    intro b R tot
    rcases hit : iterStep C value_node discount isCuda b t R tot with
      ⟨evs1, res1⟩
    cases res1 with
    | error e => simp [loopSteps, hit]
    | ok p =>
      rcases p with ⟨R2, tot2⟩
      simp [loopSteps, hit, ih]

theorem loopSteps_ok {ε : Type} {C : Collab ε} {value_node : String}
    {discount : ℚ} {isCuda : Bool} {b : Batch} :
    ∀ (ts : List Nat) (R : Tensor) (tot : Option Tensor) (evs : List Event)
      (b2 : Batch) (Rf : Tensor) (totf : Option Tensor),
      loopSteps C value_node discount isCuda ts b R tot =
        (evs, b2, .ok (Rf, totf)) →
      ∃ steps : List (Step ε), evs = eventsOf value_node steps ∧
        steps.map Step.t = ts ∧
        (∀ s ∈ steps, StepOk C value_node isCuda b s) ∧ b2 = b := by
  intro ts
  induction ts with
  | nil =>
    intro R tot evs b2 Rf totf h
    simp only [loopSteps, Prod.mk.injEq, Except.ok.injEq] at h
    exact ⟨[], h.1.symm, rfl, by simp, h.2.1.symm⟩
  | cons t ts ih =>
    intro R tot evs b2 Rf totf h
    rcases hit : iterStep C value_node discount isCuda b t R tot with
      ⟨evs1, res1⟩
    cases res1 with
    | error e => simp [loopSteps, hit] at h
    | ok p =>
      rcases p with ⟨R2, tot2⟩
      simp only [loopSteps, hit] at h
      rcases hrest : loopSteps C value_node discount isCuda ts b R2
        (some tot2) with ⟨evs', b2', res'⟩
      rw [hrest] at h
      simp only [Prod.mk.injEq] at h
      obtain ⟨hevs, hb2, hres⟩ := h
      rw [hres] at hrest
      obtain ⟨steps', hevs', hmap', hok', hb2'⟩ := ih R2 (some tot2) evs' b2'
        Rf totf hrest
      obtain ⟨s, hsevs, hst, hsok, -, -, -, -⟩ := iterStep_ok hit
      refine ⟨s :: steps', ?_, ?_, ?_, by rw [← hb2, hb2']⟩
      · rw [← hevs, eventsOf, hsevs, hevs']
      · simp [hmap', hst]
      · intro x hx
        rcases List.mem_cons.mp hx with hx | hx
        · rw [hx]; exact hsok
        · exact hok' x hx

theorem loopSteps_error {ε : Type} {C : Collab ε} {value_node : String}
    {discount : ℚ} {isCuda : Bool} {b : Batch} :
    ∀ (ts : List Nat) (R : Tensor) (tot : Option Tensor) (evs : List Event)
      (b2 : Batch) (e : UErr ε),
      loopSteps C value_node discount isCuda ts b R tot =
        (evs, b2, .error e) →
      b2 = b ∧ (∀ n q, Event.statFeed n q ∉ evs) ∧
      (∀ w, Event.setR w ∉ evs) ∧ e ≠ .noneSubscript ∧
      (∀ e0, e = .collab e0 →
        (∃ t', C.model t' = .error e0) ∨
        (∃ adv sc t', C.pgFeed adv sc t' = .error e0) ∨
        (∃ inp, C.vmFeed inp = .error e0)) := by
  intro ts
  induction ts with
  | nil =>
    intro R tot evs b2 e h
    simp [loopSteps] at h
  | cons t ts ih =>
    intro R tot evs b2 e h
    rcases hit : iterStep C value_node discount isCuda b t R tot with
      ⟨evs1, res1⟩
    cases res1 with
    | error e1 =>
      simp only [loopSteps, hit, Prod.mk.injEq, Except.error.injEq] at h
      obtain ⟨hevs, hb2, he⟩ := h
      obtain ⟨h1, h2, h3, h4⟩ := iterStep_error hit
      subst hevs
      exact ⟨hb2.symm, h1, h2, he ▸ h3, fun e0 he0 => h4 e0 (he ▸ he0)⟩
    | ok p =>
      rcases p with ⟨R2, tot2⟩
      simp only [loopSteps, hit] at h
      rcases hrest : loopSteps C value_node discount isCuda ts b R2
        (some tot2) with ⟨evs', b2', res'⟩
      rw [hrest] at h
      simp only [Prod.mk.injEq] at h
      obtain ⟨hevs, hb2, hres⟩ := h
      rw [hres] at hrest
      obtain ⟨hb', hstat', hset', hns', horig'⟩ := ih R2 (some tot2) evs' b2'
        e hrest
      obtain ⟨s, hsevs, -, -, -, -, -, -⟩ := iterStep_ok hit
      subst hevs
      refine ⟨by rw [← hb2, hb'], ?_, ?_, hns', horig'⟩
      · intro n q hq
        rcases List.mem_append.mp hq with hq | hq
        · rw [hsevs] at hq
          simp [stepEvents] at hq
        · exact hstat' n q hq
      · intro w hw
        rcases List.mem_append.mp hw with hw | hw
        · rw [hsevs] at hw
          simp [stepEvents] at hw
        · exact hset' w hw

theorem loopSteps_tot_some {ε : Type} {C : Collab ε} {value_node : String}
    {discount : ℚ} {isCuda : Bool} {b : Batch} :
    ∀ (ts : List Nat) (R : Tensor) (te : Tensor) (evs : List Event)
      (b2 : Batch) (Rf : Tensor) (totf : Option Tensor),
      loopSteps C value_node discount isCuda ts b R (some te) =
        (evs, b2, .ok (Rf, totf)) →
      totf.isSome = true := by
  intro ts
  induction ts with
  | nil =>
    intro R te evs b2 Rf totf h
    simp only [loopSteps, Prod.mk.injEq, Except.ok.injEq] at h
    rw [← h.2.2.2]
    rfl
  | cons t ts ih =>
    intro R te evs b2 Rf totf h
    rcases hit : iterStep C value_node discount isCuda b t R (some te) with
      ⟨evs1, res1⟩
    cases res1 with
    | error e => simp [loopSteps, hit] at h
    | ok p =>
      rcases p with ⟨R2, tot2⟩
      simp only [loopSteps, hit] at h
      rcases hrest : loopSteps C value_node discount isCuda ts b R2
        (some tot2) with ⟨evs', b2', res'⟩
      rw [hrest] at h
      simp only [Prod.mk.injEq] at h
      rw [h.2.2] at hrest
      exact ih R2 tot2 evs' b2' Rf totf hrest

theorem loopSteps_alloc {ε : Type} {C : Collab ε} {value_node : String}
    {discount : ℚ} {isCuda : Bool} {b : Batch} {t : Nat} {ts : List Nat}
    {R : Tensor} {evs : List Event} {b2 : Batch} {Rf : Tensor}
    {totf : Option Tensor}
    (h : loopSteps C value_node discount isCuda (t :: ts) b R none =
      (evs, b2, .ok (Rf, totf))) :
    totf.isSome = true := by
  rcases hit : iterStep C value_node discount isCuda b t R none with
    ⟨evs1, res1⟩
  cases res1 with
  | error e => simp [loopSteps, hit] at h
  | ok p =>
    rcases p with ⟨R2, tot2⟩
    simp only [loopSteps, hit] at h
    rcases hrest : loopSteps C value_node discount isCuda ts b R2
      (some tot2) with ⟨evs', b2', res'⟩
    rw [hrest] at h
    simp only [Prod.mk.injEq] at h
    rw [h.2.2] at hrest
    exact loopSteps_tot_some ts R2 tot2 evs' b2' Rf totf hrest

theorem zipWith_head_some {f : ℚ → ℚ → ℚ} {xs ys : List ℚ} {q : ℚ}
    (h : (List.zipWith f xs ys).head? = some q) :
    ∃ a c, xs.head? = some a ∧ ys.head? = some c ∧ q = f a c := by
  cases xs with
  | nil => simp at h
  | cons x xs =>
    cases ys with
    | nil => simp at h
    | cons y ys =>
      simp at h
      exact ⟨x, y, rfl, rfl, h.symm⟩

theorem backErrHeads_stepEvents {ε : Type} (value_node : String) (s : Step ε)
    {c : ℚ} (hc : s.err.data.head? = some c) :
    backErrHeads (stepEvents value_node s) = [c] := by
  simp [backErrHeads, stepEvents, List.filterMap, hc]

theorem loopSteps_tot_head {ε : Type} {C : Collab ε} {value_node : String}
    {discount : ℚ} {isCuda : Bool} {b : Batch} :
    ∀ (ts : List Nat) (R : Tensor) (tot : Option Tensor) (evs : List Event)
      (b2 : Batch) (Rf : Tensor) (te : Tensor) (q : ℚ),
      loopSteps C value_node discount isCuda ts b R tot =
        (evs, b2, .ok (Rf, some te)) →
      te.data.head? = some q →
      (tot = none → q = (backErrHeads evs).sum) ∧
      (∀ te0, tot = some te0 → ∃ h0, te0.data.head? = some h0 ∧
        q = h0 + (backErrHeads evs).sum) := by
  intro ts
  induction ts with
  | nil =>
    intro R tot evs b2 Rf te q h hq
    simp only [loopSteps, Prod.mk.injEq, Except.ok.injEq] at h
    obtain ⟨hevs, -, -, htot⟩ := h
    constructor
    · intro h0
      rw [h0] at htot
      exact Option.noConfusion htot
    · intro te0 h0
      rw [h0] at htot
      obtain rfl := Option.some.inj htot
      exact ⟨q, hq, by rw [← hevs]; simp [backErrHeads]⟩
  | cons t ts ih =>
    intro R tot evs b2 Rf te q h hq
    rcases hit : iterStep C value_node discount isCuda b t R tot with
      ⟨evs1, res1⟩
    cases res1 with
    | error e => simp [loopSteps, hit] at h
    | ok p =>
      rcases p with ⟨R2, tot2⟩
      simp only [loopSteps, hit] at h
      rcases hrest : loopSteps C value_node discount isCuda ts b R2
        (some tot2) with ⟨evs', b2', res'⟩
      rw [hrest] at h
      simp only [Prod.mk.injEq] at h
      obtain ⟨hevs, -, hres⟩ := h
      rw [hres] at hrest
      obtain ⟨-, ihsome⟩ := ih R2 (some tot2) evs' b2' Rf te q hrest hq
      obtain ⟨h1, hh1, hqsum⟩ := ihsome tot2 rfl
      obtain ⟨s, hsevs, -, -, -, -, htotn, htots⟩ := iterStep_ok hit
      constructor
      · intro h0
        rw [htotn h0] at hh1
        simp only [Tensor.add, Tensor.zeros_like, Tensor.detach] at hh1
        obtain ⟨a, c, ha, hc, hac⟩ := zipWith_head_some hh1
        rw [List.head?_map, hc] at ha
        simp only [Option.map_some'] at ha
        obtain rfl := Option.some.inj ha
        rw [← hevs, hsevs, backErrHeads, List.filterMap_append,
          List.sum_append, ← backErrHeads, ← backErrHeads,
          backErrHeads_stepEvents value_node s hc, hqsum, hac]
        have hc1 : ([c]).sum = c := by simp
        rw [hc1]
        ring
      · intro te0 h0
        rw [htots te0 h0] at hh1
        simp only [Tensor.add, Tensor.detach] at hh1
        obtain ⟨a, c, ha, hc, hac⟩ := zipWith_head_some hh1
        refine ⟨a, ha, ?_⟩
        rw [← hevs, hsevs, backErrHeads, List.filterMap_append,
          List.sum_append, ← backErrHeads, ← backErrHeads,
          backErrHeads_stepEvents value_node s hc, hqsum, hac]
        have hc1 : ([c]).sum = c := by simp
        rw [hc1]
        ring

theorem eventsOf_no_statFeed {ε : Type} (value_node : String) :
    ∀ (steps : List (Step ε)) (n : String) (q : ℚ),
      Event.statFeed n q ∉ eventsOf value_node steps := by
  intro steps
  induction steps with
  | nil => intro n q h; exact absurd h (by simp [eventsOf])
  | cons s ss ih =>
    intro n q h
    rcases List.mem_append.mp h with h | h
    · simp [stepEvents] at h
    · exact ih n q h

theorem eventsOf_no_setR {ε : Type} (value_node : String) :
    ∀ (steps : List (Step ε)) (w : Tensor),
      Event.setR w ∉ eventsOf value_node steps := by
  intro steps
  induction steps with
  | nil => intro w h; exact absurd h (by simp [eventsOf])
  | cons s ss ih =>
    intro w h
    rcases List.mem_append.mp h with h | h
    · simp [stepEvents] at h
    · exact ih w h

theorem countP_eventsOf_backward {ε : Type} (value_node : String) :
    ∀ steps : List (Step ε),
      (eventsOf value_node steps).countP Event.isBackward = steps.length := by
  intro steps
  induction steps with
  | nil => rfl
  | cons s ss ih =>
    simp only [eventsOf, List.countP_append, ih, List.length_cons]
    have h1 : (stepEvents value_node s).countP Event.isBackward = 1 := by
      simp [stepEvents, List.countP_cons, Event.isBackward]
    rw [h1]
    ring

theorem countP_eventsOf_drFeed {ε : Type} (value_node : String) :
    ∀ steps : List (Step ε),
      (eventsOf value_node steps).countP Event.isDrFeed = steps.length := by
  intro steps
  induction steps with
  | nil => rfl
  | cons s ss ih =>
    simp only [eventsOf, List.countP_append, ih, List.length_cons]
    have h1 : (stepEvents value_node s).countP Event.isDrFeed = 1 := by
      simp [stepEvents, List.countP_cons, Event.isDrFeed]
    rw [h1]
    ring

theorem countP_eventsOf_pgFeed {ε : Type} (value_node : String) :
    ∀ steps : List (Step ε),
      (eventsOf value_node steps).countP Event.isPgFeed = steps.length := by
  intro steps
  induction steps with
  | nil => rfl
  | cons s ss ih =>
    simp only [eventsOf, List.countP_append, ih, List.length_cons]
    have h1 : (stepEvents value_node s).countP Event.isPgFeed = 1 := by
      simp [stepEvents, List.countP_cons, Event.isPgFeed]
    rw [h1]
    ring

theorem modelCalls_append (l1 l2 : List Event) :
    modelCalls (l1 ++ l2) = modelCalls l1 ++ modelCalls l2 := by
  simp [modelCalls, List.filterMap_append]

theorem modelCalls_eventsOf {ε : Type} (value_node : String) :
    ∀ steps : List (Step ε),
      modelCalls (eventsOf value_node steps) = steps.map Step.t := by
  intro steps
  induction steps with
  | nil => rfl
  | cons s ss ih =>
    have h1 : modelCalls (stepEvents value_node s) = [s.t] := by
      simp [modelCalls, stepEvents]
    rw [eventsOf, modelCalls_append, h1, ih]
    rfl

theorem costs_append (l1 l2 : List Event) :
    costs (l1 ++ l2) = costs l1 ++ costs l2 := by
  simp [costs, List.filterMap_append]

theorem costs_of_no_statFeed {l : List Event}
    (h : ∀ n q, Event.statFeed n q ∉ l) : costs l = [] := by
  induction l with
  | nil => rfl
  | cons e l ih =>
    have he : ∀ n q, Event.statFeed n q ∉ l := fun n q hq =>
      h n q (List.mem_cons_of_mem e hq)
    cases e with
    | statFeed n q => exact absurd (List.mem_cons_self _ _) (h n q)
    | modelCall t =>
      have h2 : costs (Event.modelCall t :: l) = costs l := by
        simp [costs, List.filterMap_cons]
      rw [h2, ih he]
    | setR v =>
      have h2 : costs (Event.setR v :: l) = costs l := by
        simp [costs, List.filterMap_cons]
      rw [h2, ih he]
    | drFeed t r term =>
      have h2 : costs (Event.drFeed t r term :: l) = costs l := by
        simp [costs, List.filterMap_cons]
      rw [h2, ih he]
    | pgFeed a sc t =>
      have h2 : costs (Event.pgFeed a sc t :: l) = costs l := by
        simp [costs, List.filterMap_cons]
      rw [h2, ih he]
    | vmFeed inp =>
      have h2 : costs (Event.vmFeed inp :: l) = costs l := by
        simp [costs, List.filterMap_cons]
      rw [h2, ih he]
    | backward err =>
      have h2 : costs (Event.backward err :: l) = costs l := by
        simp [costs, List.filterMap_cons]
      rw [h2, ih he]

theorem countP_costFeed_of_no_statFeed {l : List Event}
    (h : ∀ n q, Event.statFeed n q ∉ l) :
    l.countP Event.isCostFeed = 0 := by
  rw [List.countP_eq_zero]
  intro e he
  cases e with
  | statFeed n q => exact absurd he (h n q)
  | modelCall t => simp [Event.isCostFeed]
  | setR v => simp [Event.isCostFeed]
  | drFeed t r term => simp [Event.isCostFeed]
  | pgFeed a sc t => simp [Event.isCostFeed]
  | vmFeed inp => simp [Event.isCostFeed]
  | backward err => simp [Event.isCostFeed]

theorem countP_setR_of_no_setR {l : List Event}
    (h : ∀ w, Event.setR w ∉ l) :
    l.countP Event.isSetR = 0 := by
  rw [List.countP_eq_zero]
  intro e he
  cases e with
  | setR w => exact absurd he (h w)
  | modelCall t => simp [Event.isSetR]
  | statFeed n q => simp [Event.isSetR]
  | drFeed t r term => simp [Event.isSetR]
  | pgFeed a sc t => simp [Event.isSetR]
  | vmFeed inp => simp [Event.isSetR]
  | backward err => simp [Event.isSetR]

theorem advObligation_eventsOf {ε : Type} (value_node : String) :
    ∀ (steps : List (Step ε)) (rest : List Event),
      advObligation value_node (eventsOf value_node steps ++ rest) =
        advObligation value_node rest := by
  intro steps
  induction steps with
  | nil => intro rest; rfl
  | cons s ss ih =>
    intro rest
    have hgrad : (s.R.sub s.V.detach).grad = s.R.grad := by
      simp [Tensor.sub, Tensor.detach]
    simp only [eventsOf, stepEvents, List.cons_append, List.append_assoc]
    simp [advObligation, hgrad, ih rest]

theorem drFeedRouting_eventsOf {ε : Type} {C : Collab ε}
    (value_node : String) (isCuda : Bool) (b : Batch) :
    ∀ (steps : List (Step ε)) (rest : List Event),
      (∀ s ∈ steps, StepOk C value_node isCuda b s) →
      drFeedRouting isCuda b (eventsOf value_node steps ++ rest) =
        drFeedRouting isCuda b rest := by
  intro steps
  induction steps with
  | nil => intro rest _; rfl
  | cons s ss ih =>
    intro rest hok
    obtain ⟨-, -, ⟨rt, hrt, hrIn⟩, hterm, -⟩ :=
      hok s (List.mem_cons_self _ _)
    have hr : b.r[s.t]?.map (cudaify isCuda) = some s.rIn := by
      rw [hrt, hrIn]; rfl
    simp only [eventsOf, stepEvents, List.cons_append, List.append_assoc]
    simp [drFeedRouting, hr, hterm,
      ih rest (fun x hx => hok x (List.mem_cons_of_mem s hx))]

theorem loopBlocks_eventsOf {ε : Type} (value_node : String) :
    ∀ (steps : List (Step ε)) (rest : List Event),
      loopBlocks (eventsOf value_node steps ++ rest) = loopBlocks rest := by
  intro steps
  induction steps with
  | nil => intro rest; rfl
  | cons s ss ih =>
    intro rest
    simp only [eventsOf, stepEvents, List.cons_append, List.append_assoc]
    simp [loopBlocks, ih rest]

theorem update_ok {ε : Type} {C : Collab ε} {value_node : String}
    {discount : ℚ} {batch : Batch} {dr0 : Option Tensor} {tr : List Event}
    {b2 : Batch} {res : Option Tensor}
    (h : update C value_node discount batch dr0 = (tr, b2, .ok res)) :
    ∃ sc v0 evs b' Rf te c0,
      C.model (batch.s.length - 1) = .ok sc ∧
      sc.lookup value_node = some v0 ∧
      loopSteps C value_node discount v0.is_cuda
        ((List.range (batch.s.length - 1)).reverse) batch
        v0.squeeze.detach none = (evs, b', .ok (Rf, some te)) ∧
      te.data.head? = some c0 ∧
      tr = .modelCall (batch.s.length - 1) :: .setR v0.squeeze.detach ::
        (evs ++ [.statFeed "cost" (c0 / ((batch.s.length : ℚ) - 1))]) ∧
      b2 = b' ∧ res = some Rf := by
  cases hm : C.model (batch.s.length - 1) with
  | error e => simp [update, hm] at h
  | ok sc =>
    cases hl : sc.lookup value_node with
    | none => simp [update, hm, hl] at h
    | some v0 =>
      rcases hloop : loopSteps C value_node discount v0.is_cuda
          ((List.range (batch.s.length - 1)).reverse) batch
          v0.squeeze.detach none with ⟨evs, b', res'⟩
      cases res' with
      | error e => simp [update, hm, hl, hloop] at h
      | ok p =>
        rcases p with ⟨Rf, totf⟩
        cases totf with
        | none => simp [update, hm, hl, hloop] at h
        | some te =>
          cases hhd : te.data.head? with
          | none => simp [update, hm, hl, hloop, hhd] at h
          | some c0 =>
            simp only [update, hm, hl, hloop, hhd, Prod.mk.injEq,
              Except.ok.injEq] at h
            exact ⟨sc, v0, evs, b', Rf, te, c0, rfl, hl, hloop, hhd,
              h.1.symm, h.2.1.symm, h.2.2.symm⟩

theorem backErrHeads_append (l1 l2 : List Event) :
    backErrHeads (l1 ++ l2) = backErrHeads l1 ++ backErrHeads l2 := by
  simp [backErrHeads, List.filterMap_append]

/-- C1: for every batch with `T ≥ 2` on which every collaborator call
succeeds (the run returns `ok`), `update` feeds `stats["cost"]` exactly
once, with the value `tot_err[0] / (T-1)`: the list of cost feeds is exactly
the singleton of the sum of the first-batch-instance entries of the detached
combined per-step errors (the tensors stepped backward, each the `add_err`
combination of the policy-gradient and value-matcher losses) divided by
`T-1`, i.e. the mean over the `T-1` steps of the first-batch-instance scalar
combined loss. -/
theorem cost_fed_once_with_mean {ε : Type} (C : Collab ε)
    (value_node : String) (discount : ℚ) (batch : Batch)
    (dr0 : Option Tensor) (tr : List Event) (b2 : Batch)
    (res : Option Tensor) (hT : 2 ≤ batch.s.length)
    (h : update C value_node discount batch dr0 = (tr, b2, .ok res)) :
    costs tr = [(backErrHeads tr).sum / ((batch.s.length : ℚ) - 1)] ∧
    tr.countP Event.isBackward = batch.s.length - 1 := by
  obtain ⟨sc, v0, evs, b', Rf, te, c0, hm, hl, hloop, hhd, htr, hb2, hres⟩ :=
    update_ok h
  obtain ⟨steps, hevs, hmap, hok, hb'⟩ := loopSteps_ok _ _ _ _ _ _ _ hloop
  obtain ⟨hnone, -⟩ := loopSteps_tot_head _ _ _ _ _ _ _ _ hloop hhd
  have hc0 : c0 = (backErrHeads evs).sum := hnone rfl
  have hlen : steps.length = batch.s.length - 1 := by
    have := congrArg List.length hmap
    simpa using this
  have hcevs : costs evs = [] := costs_of_no_statFeed (by
    rw [hevs]; exact eventsOf_no_statFeed value_node steps)
  subst htr
  constructor
  · have h1 : ∀ l : List Event,
        costs (Event.modelCall (batch.s.length - 1) ::
          Event.setR v0.squeeze.detach :: l) = costs l := by
      intro l
      simp [costs, List.filterMap_cons]
    rw [h1, costs_append, hcevs]
    have h2 : costs [Event.statFeed "cost"
        (c0 / ((batch.s.length : ℚ) - 1))] =
        [c0 / ((batch.s.length : ℚ) - 1)] := by
      simp [costs]
    rw [h2]
    have h3 : backErrHeads (Event.modelCall (batch.s.length - 1) ::
        Event.setR v0.squeeze.detach ::
        (evs ++ [Event.statFeed "cost" (c0 / ((batch.s.length : ℚ) - 1))])) =
        backErrHeads evs := by
      simp [backErrHeads, List.filterMap_cons, List.filterMap_append]
    rw [h3, List.nil_append, ← hc0]
  · have h4 : ∀ l : List Event,
        (Event.modelCall (batch.s.length - 1) ::
          Event.setR v0.squeeze.detach :: l).countP Event.isBackward =
          l.countP Event.isBackward := by
      intro l
      simp [List.countP_cons, Event.isBackward]
    rw [h4, List.countP_append, hevs, countP_eventsOf_backward, hlen]
    simp [Event.isBackward, List.countP_cons]

/-- C2: for every batch with `T ≥ 2` on which the run succeeds, the loop
visits the timesteps `T-2, T-3, ..., 0` in exactly that order (the model
forward calls of the trace are the seed call at `T-1` followed by
`(List.range (T-1)).reverse = [T-2, ..., 0]`), and there are exactly `T-1`
gradient-accumulation steps (`err.backward()` events) and exactly `T-1`
calls to the return estimator's `feed`. -/
theorem loop_strictly_backward {ε : Type} (C : Collab ε)
    (value_node : String) (discount : ℚ) (batch : Batch)
    (dr0 : Option Tensor) (tr : List Event) (b2 : Batch)
    (res : Option Tensor) (hT : 2 ≤ batch.s.length)
    (h : update C value_node discount batch dr0 = (tr, b2, .ok res)) :
    modelCalls tr = (batch.s.length - 1) ::
      (List.range (batch.s.length - 1)).reverse ∧
    tr.countP Event.isBackward = batch.s.length - 1 ∧
    tr.countP Event.isDrFeed = batch.s.length - 1 := by
  obtain ⟨sc, v0, evs, b', Rf, te, c0, hm, hl, hloop, hhd, htr, hb2, hres⟩ :=
    update_ok h
  obtain ⟨steps, hevs, hmap, hok, hb'⟩ := loopSteps_ok _ _ _ _ _ _ _ hloop
  have hlen : steps.length = batch.s.length - 1 := by
    have := congrArg List.length hmap
    simpa using this
  subst htr
  refine ⟨?_, ?_, ?_⟩
  · have h1 : ∀ l : List Event,
        modelCalls (Event.modelCall (batch.s.length - 1) ::
          Event.setR v0.squeeze.detach :: l) =
          (batch.s.length - 1) :: modelCalls l := by
      intro l
      simp [modelCalls, List.filterMap_cons]
    rw [h1, modelCalls_append, hevs, modelCalls_eventsOf, hmap]
    have h2 : modelCalls [Event.statFeed "cost"
        (c0 / ((batch.s.length : ℚ) - 1))] = [] := by
      simp [modelCalls]
    rw [h2, List.append_nil]
  · have h4 : ∀ l : List Event,
        (Event.modelCall (batch.s.length - 1) ::
          Event.setR v0.squeeze.detach :: l).countP Event.isBackward =
          l.countP Event.isBackward := by
      intro l
      simp [List.countP_cons, Event.isBackward]
    rw [h4, List.countP_append, hevs, countP_eventsOf_backward, hlen]
    simp [Event.isBackward, List.countP_cons]
  · have h4 : ∀ l : List Event,
        (Event.modelCall (batch.s.length - 1) ::
          Event.setR v0.squeeze.detach :: l).countP Event.isDrFeed =
          l.countP Event.isDrFeed := by
      intro l
      simp [List.countP_cons, Event.isDrFeed]
    rw [h4, List.countP_append, hevs, countP_eventsOf_drFeed, hlen]
    simp [Event.isDrFeed, List.countP_cons]

/-- C3: on every successful run, every policy-gradient call of the trace is
immediately followed by its value-matcher call, the advantage handed to the
policy-gradient objective is `R - V.data` (the target return minus the
explicitly detached squeezed value estimate, so the advantage's gradient
flag equals `R`'s — the value head contributes no gradient path through it),
and the value matcher receives the undetached, gradient-carrying `V` under
the configured `value_node` key together with `target = R`; there is one
such pair per loop step (`T-1` of them). -/
theorem advantage_detached_value_fed {ε : Type} (C : Collab ε)
    (value_node : String) (discount : ℚ) (batch : Batch)
    (dr0 : Option Tensor) (tr : List Event) (b2 : Batch)
    (res : Option Tensor)
    (h : update C value_node discount batch dr0 = (tr, b2, .ok res)) :
    advObligation value_node tr = true ∧
    tr.countP Event.isPgFeed = batch.s.length - 1 := by
  obtain ⟨sc, v0, evs, b', Rf, te, c0, hm, hl, hloop, hhd, htr, hb2, hres⟩ :=
    update_ok h
  obtain ⟨steps, hevs, hmap, hok, hb'⟩ := loopSteps_ok _ _ _ _ _ _ _ hloop
  have hlen : steps.length = batch.s.length - 1 := by
    have := congrArg List.length hmap
    simpa using this
  subst htr
  constructor
  · have h1 : ∀ l : List Event,
        advObligation value_node (Event.modelCall (batch.s.length - 1) ::
          Event.setR v0.squeeze.detach :: l) =
          advObligation value_node l := by
      intro l
      rfl
    rw [h1, hevs, advObligation_eventsOf]
    rfl
  · have h4 : ∀ l : List Event,
        (Event.modelCall (batch.s.length - 1) ::
          Event.setR v0.squeeze.detach :: l).countP Event.isPgFeed =
          l.countP Event.isPgFeed := by
      intro l
      simp [List.countP_cons, Event.isPgFeed]
    rw [h4, List.countP_append, hevs, countP_eventsOf_pgFeed, hlen]
    simp [Event.isPgFeed, List.countP_cons]

/-- C4 (amended): on every successful run, the device placement is the one
sensed once from the `value_node` output of the terminal-step forward
(`v0.is_cuda`), every reward tensor fed to the return estimator is the
timestep's `batch["r"][t]` routed through `cudaify` with that placement, and
every terminal-flag tensor fed is the timestep's `batch["terminal"][t]`
passed as is (not moved). -/
theorem reward_routed_terminal_as_is {ε : Type} (C : Collab ε)
    (value_node : String) (discount : ℚ) (batch : Batch)
    (dr0 : Option Tensor) (tr : List Event) (b2 : Batch)
    (res : Option Tensor) (sc : ModelOut) (v0 : Tensor)
    (hm : C.model (batch.s.length - 1) = .ok sc)
    (hl : sc.lookup value_node = some v0)
    (h : update C value_node discount batch dr0 = (tr, b2, .ok res)) :
    drFeedRouting v0.is_cuda batch tr = true := by
  obtain ⟨sc', v0', evs, b', Rf, te, c0, hm', hl', hloop, hhd, htr, hb2,
    hres⟩ := update_ok h
  rw [hm] at hm'
  obtain rfl := Except.ok.inj hm'
  rw [hl] at hl'
  obtain rfl := Option.some.inj hl'
  obtain ⟨steps, hevs, hmap, hok, hb'⟩ := loopSteps_ok _ _ _ _ _ _ _ hloop
  subst htr
  have h1 : ∀ l : List Event,
      drFeedRouting v0.is_cuda batch
        (Event.modelCall (batch.s.length - 1) ::
          Event.setR v0.squeeze.detach :: l) =
        drFeedRouting v0.is_cuda batch l := by
    intro l
    rfl
  rw [h1, hevs, drFeedRouting_eventsOf value_node v0.is_cuda batch steps _ hok]
  rfl

/-- C7: on every successful run, the loop region of the trace (everything
after the seed forward and `setR`) consists of complete per-iteration blocks
— forward, estimator feed, policy-gradient feed, value-matcher feed, and
then immediately the `backward()` on that step's combined error — followed
only by the final single cost feed: gradient propagation for step `t` always
happens inside iteration `t`, before the next iteration's forward pass, and
is never deferred to after the loop. -/
theorem backward_immediate_per_step {ε : Type} (C : Collab ε)
    (value_node : String) (discount : ℚ) (batch : Batch)
    (dr0 : Option Tensor) (tr : List Event) (b2 : Batch)
    (res : Option Tensor)
    (h : update C value_node discount batch dr0 = (tr, b2, .ok res)) :
    loopBlocks (tr.drop 2) = true ∧
    tr.countP Event.isBackward = batch.s.length - 1 := by
  obtain ⟨sc, v0, evs, b', Rf, te, c0, hm, hl, hloop, hhd, htr, hb2, hres⟩ :=
    update_ok h
  obtain ⟨steps, hevs, hmap, hok, hb'⟩ := loopSteps_ok _ _ _ _ _ _ _ hloop
  have hlen : steps.length = batch.s.length - 1 := by
    have := congrArg List.length hmap
    simpa using this
  subst htr
  constructor
  · simp only [List.drop]
    rw [hevs, loopBlocks_eventsOf]
    rfl
  · have h4 : ∀ l : List Event,
        (Event.modelCall (batch.s.length - 1) ::
          Event.setR v0.squeeze.detach :: l).countP Event.isBackward =
          l.countP Event.isBackward := by
      intro l
      simp [List.countP_cons, Event.isBackward]
    rw [h4, List.countP_append, hevs, countP_eventsOf_backward, hlen]
    simp [Event.isBackward, List.countP_cons]

/-- C5: for a batch with `T = 1` (given the seed forward itself succeeds and
exposes the `value_node` output), `update` fails deterministically: the loop
body never runs (the trace is just the seed forward and `setR`), no gradient
step is performed, `tot_err` stays the `None` sentinel so the final
`tot_err[0]` subscription raises (`noneSubscript`), and no cost value is
ever fed to `stats`. -/
theorem T1_fails_deterministically {ε : Type} (C : Collab ε)
    (value_node : String) (discount : ℚ) (batch : Batch)
    (dr0 : Option Tensor) (sc : ModelOut) (v0 : Tensor)
    (hT : batch.s.length = 1)
    (hm : C.model 0 = .ok sc) (hl : sc.lookup value_node = some v0) :
    update C value_node discount batch dr0 =
      ([.modelCall 0, .setR v0.squeeze.detach], batch,
        .error .noneSubscript) ∧
    (update C value_node discount batch dr0).1.countP Event.isBackward = 0 ∧
    (update C value_node discount batch dr0).1.countP
      Event.isCostFeed = 0 := by
  have h0 : batch.s.length - 1 = 0 := by omega
  have h1 : update C value_node discount batch dr0 =
      ([.modelCall 0, .setR v0.squeeze.detach], batch,
        .error .noneSubscript) := by
    simp [update, h0, hm, hl, loopSteps]
  refine ⟨h1, ?_, ?_⟩
  · rw [h1]
    simp [List.countP_cons, Event.isBackward]
  · rw [h1]
    simp [List.countP_cons, Event.isCostFeed]

/-- C6: if a collaborator call raises during `update` (the run ends in a
propagated collaborator error), the exception value reaches the caller
unchanged — it is exactly the error returned by one of the collaborator
calls (model forward, policy-gradient feed, or value-matcher feed) — no
retry or recovery happens, and `stats["cost"]` is never fed on that call;
the trace retains only the events from before the failure point. -/
theorem collaborator_error_propagates {ε : Type} (C : Collab ε)
    (value_node : String) (discount : ℚ) (batch : Batch)
    (dr0 : Option Tensor) (tr : List Event) (b2 : Batch) (e : ε)
    (h : update C value_node discount batch dr0 =
      (tr, b2, .error (.collab e))) :
    tr.countP Event.isCostFeed = 0 ∧
    ((∃ t, C.model t = .error e) ∨
     (∃ adv sc t, C.pgFeed adv sc t = .error e) ∨
     (∃ inp, C.vmFeed inp = .error e)) := by
  cases hm : C.model (batch.s.length - 1) with
  | error e1 =>
    simp only [update, hm, Prod.mk.injEq, Except.error.injEq,
      UErr.collab.injEq] at h
    obtain ⟨htr, -, he⟩ := h
    constructor
    · rw [← htr]
      simp [List.countP_cons, Event.isCostFeed]
    · exact Or.inl ⟨batch.s.length - 1, by rw [hm, he]⟩
  | ok sc =>
    cases hl : sc.lookup value_node with
    | none => simp [update, hm, hl] at h
    | some v0 =>
      rcases hloop : loopSteps C value_node discount v0.is_cuda
          ((List.range (batch.s.length - 1)).reverse) batch
          v0.squeeze.detach none with ⟨evs, b', res'⟩
      cases res' with
      | error e2 =>
        simp only [update, hm, hl, hloop, Prod.mk.injEq,
          Except.error.injEq] at h
        obtain ⟨htr, -, he⟩ := h
        obtain ⟨-, hnostat, -, -, horig⟩ :=
          loopSteps_error _ _ _ _ _ _ hloop
        constructor
        · rw [← htr]
          have hevs0 : evs.countP Event.isCostFeed = 0 :=
            countP_costFeed_of_no_statFeed hnostat
          simp [List.countP_cons, Event.isCostFeed, hevs0]
        · exact horig e he
      | ok p =>
        rcases p with ⟨Rf, totf⟩
        cases totf with
        | none => simp [update, hm, hl, hloop] at h
        | some te =>
          cases hhd : te.data.head? with
          | none => simp [update, hm, hl, hloop, hhd] at h
          | some c0 => simp [update, hm, hl, hloop, hhd] at h

/-- C8: provided the seed forward succeeds and exposes the `value_node`
output, `setR` is invoked exactly once per `update` call, with the detached
squeezed terminal-step value estimate, as the second event of the trace —
before any return-estimator `feed` — and no further `setR` occurs; and
because `setR` fully overwrites the estimator's state, the entire result of
`update` is independent of whatever estimator state `dr0` was left behind by
a previous call: no state leaks between sequential calls. -/
theorem setR_once_resets_state {ε : Type} (C : Collab ε)
    (value_node : String) (discount : ℚ) (batch : Batch) (sc : ModelOut)
    (v0 : Tensor) (dr0 dr0' : Option Tensor)
    (hm : C.model (batch.s.length - 1) = .ok sc)
    (hl : sc.lookup value_node = some v0) :
    update C value_node discount batch dr0 =
      update C value_node discount batch dr0' ∧
    (update C value_node discount batch dr0).1.take 2 =
      [.modelCall (batch.s.length - 1), .setR v0.squeeze.detach] ∧
    ((update C value_node discount batch dr0).1.drop 2).countP
      Event.isSetR = 0 := by
  have key : ∀ tr b2 r, update C value_node discount batch dr0 =
      (tr, b2, r) →
      tr.take 2 = [.modelCall (batch.s.length - 1),
        .setR v0.squeeze.detach] ∧
      (tr.drop 2).countP Event.isSetR = 0 := by
    intro tr b2 r h
    rcases hloop : loopSteps C value_node discount v0.is_cuda
        ((List.range (batch.s.length - 1)).reverse) batch
        v0.squeeze.detach none with ⟨evs, b', res'⟩
    cases res' with
    | error e =>
      simp only [update, hm, hl, hloop, Prod.mk.injEq] at h
      obtain ⟨htr, -, -⟩ := h
      obtain ⟨-, -, hnoset, -, -⟩ := loopSteps_error _ _ _ _ _ _ hloop
      rw [← htr]
      exact ⟨rfl, countP_setR_of_no_setR hnoset⟩
    | ok p =>
      rcases p with ⟨Rf, totf⟩
      have hnoset2 : ∀ c0 : ℚ,
          ∀ w, Event.setR w ∉
            evs ++ [Event.statFeed "cost" c0] := by
        intro c0 w hw
        obtain ⟨steps, hevs, -, -, -⟩ := loopSteps_ok _ _ _ _ _ _ _
          (by rw [hloop])
        rcases List.mem_append.mp hw with hw | hw
        · rw [hevs] at hw
          exact eventsOf_no_setR value_node steps w hw
        · simp at hw
      cases totf with
      | none =>
        simp only [update, hm, hl, hloop, Prod.mk.injEq] at h
        obtain ⟨htr, -, -⟩ := h
        obtain ⟨steps, hevs, -, -, -⟩ := loopSteps_ok _ _ _ _ _ _ _ hloop
        rw [← htr]
        refine ⟨rfl, countP_setR_of_no_setR ?_⟩
        rw [hevs]
        exact eventsOf_no_setR value_node steps
      | some te =>
        cases hhd : te.data.head? with
        | none =>
          simp only [update, hm, hl, hloop, hhd, Prod.mk.injEq] at h
          obtain ⟨htr, -, -⟩ := h
          obtain ⟨steps, hevs, -, -, -⟩ := loopSteps_ok _ _ _ _ _ _ _ hloop
          rw [← htr]
          refine ⟨rfl, countP_setR_of_no_setR ?_⟩
          rw [hevs]
          exact eventsOf_no_setR value_node steps
        | some c0 =>
          simp only [update, hm, hl, hloop, hhd, Prod.mk.injEq] at h
          obtain ⟨htr, -, -⟩ := h
          rw [← htr]
          exact ⟨rfl, countP_setR_of_no_setR (hnoset2 _)⟩
  obtain ⟨h1, h2⟩ := key (update C value_node discount batch dr0).1
    (update C value_node discount batch dr0).2.1
    (update C value_node discount batch dr0).2.2 rfl
  exact ⟨rfl, h1, h2⟩

/-- C9: `update` never mutates the trajectory batch: the batch object after
the call (threaded through the whole loop by the embedding) is the input
batch unchanged, for every call, every outcome, and every `T`. -/
theorem batch_only_read {ε : Type} (C : Collab ε) (value_node : String)
    (discount : ℚ) (batch : Batch) (dr0 : Option Tensor) :
    (update C value_node discount batch dr0).2.1 = batch := by
  cases hm : C.model (batch.s.length - 1) with
  | error e => simp [update, hm]
  | ok sc =>
    cases hl : sc.lookup value_node with
    | none => simp [update, hm, hl]
    | some v0 =>
      rcases hloop : loopSteps C value_node discount v0.is_cuda
          ((List.range (batch.s.length - 1)).reverse) batch
          v0.squeeze.detach none with ⟨evs, b', res'⟩
      have hb' : b' = batch := by
        have hb := loopSteps_batch C value_node discount v0.is_cuda
          ((List.range (batch.s.length - 1)).reverse) batch
          v0.squeeze.detach none
        rw [hloop] at hb
        exact hb
      cases res' with
      | error e => simp [update, hm, hl, hloop, hb']
      | ok p =>
        rcases p with ⟨Rf, totf⟩
        cases totf with
        | none => simp [update, hm, hl, hloop, hb']
        | some te =>
          cases hhd : te.data.head? with
          | none => simp [update, hm, hl, hloop, hhd, hb']
          | some c0 => simp [update, hm, hl, hloop, hhd, hb']

/-- C10: whenever the backward loop runs at least one iteration starting
from the `None` accumulator and completes, the accumulator has been
allocated (it is `some` — the first iteration creates it as a zero tensor
and adds the first detached error); consequently, for any batch with
`T ≥ 2`, `update` can never fail by subscripting the `None` sentinel
`tot_err` in the final cost computation. -/
theorem tot_allocated_after_loop {ε : Type} (C : Collab ε)
    (value_node : String) (discount : ℚ) (isCuda : Bool) (t0 : Nat)
    (ts : List Nat) (b : Batch) (R : Tensor) (evs : List Event)
    (b2 : Batch) (Rf : Tensor) (totf : Option Tensor) (batch : Batch)
    (dr0 : Option Tensor) (hT : 2 ≤ batch.s.length)
    (hloop : loopSteps C value_node discount isCuda (t0 :: ts) b R none =
      (evs, b2, .ok (Rf, totf))) :
    totf.isSome = true ∧
    isNoneSubscriptRes (update C value_node discount batch dr0).2.2 =
      false := by
  refine ⟨loopSteps_alloc hloop, ?_⟩
  cases hm : C.model (batch.s.length - 1) with
  | error e => simp [update, hm, isNoneSubscriptRes]
  | ok sc =>
    cases hl : sc.lookup value_node with
    | none => simp [update, hm, hl, isNoneSubscriptRes]
    | some v0 =>
      rcases hloop2 : loopSteps C value_node discount v0.is_cuda
          ((List.range (batch.s.length - 1)).reverse) batch
          v0.squeeze.detach none with ⟨evs2, b2', res2⟩
      cases res2 with
      | error e =>
        obtain ⟨-, -, -, hne, -⟩ := loopSteps_error _ _ _ _ _ _ hloop2
        cases e with
        | collab e0 => simp [update, hm, hl, hloop2, isNoneSubscriptRes]
        | keyError => simp [update, hm, hl, hloop2, isNoneSubscriptRes]
        | indexError => simp [update, hm, hl, hloop2, isNoneSubscriptRes]
        | noneBackward => simp [update, hm, hl, hloop2, isNoneSubscriptRes]
        | noneSubscript => exact absurd rfl hne
      | ok p =>
        rcases p with ⟨Rf2, totf2⟩
        have hcons : ∃ t1 ts1,
            (List.range (batch.s.length - 1)).reverse = t1 :: ts1 := by
          have hne2 : (List.range (batch.s.length - 1)).reverse ≠ [] := by
            intro hnil
            rw [List.reverse_eq_nil_iff, List.range_eq_nil] at hnil
            omega
          exact List.exists_cons_of_ne_nil hne2
        obtain ⟨t1, ts1, hc⟩ := hcons
        have hsome : totf2.isSome = true := by
          have h2 := hloop2
          rw [hc] at h2
          exact loopSteps_alloc h2
        cases totf2 with
        | none => simp at hsome
        | some te =>
          cases hhd : te.data.head? with
          | none => simp [update, hm, hl, hloop2, hhd, isNoneSubscriptRes]
          | some c0 => simp [update, hm, hl, hloop2, hhd, isNoneSubscriptRes]

theorem exRun : update exC "v" (1/2) exBatch none =
    (exTrace, exBatch, .ok (some (exT 3 false false))) := by
  norm_num [update, loopSteps, iterStep, exC, exBatch, exT, exTrace,
    cudaify, add_err, DiscountedReward.feed, Tensor.add, Tensor.sub,
    Tensor.detach, Tensor.squeeze, Tensor.cuda, Tensor.zeros_like,
    List.lookup]

theorem exFailRun : update exCfail "v" (1/2) exBatch none =
    (exFailTrace, exBatch, .error (.collab ())) := by
  norm_num [update, loopSteps, iterStep, exCfail, exBatch, exT, exFailTrace,
    cudaify, add_err, DiscountedReward.feed, Tensor.add, Tensor.sub,
    Tensor.detach, Tensor.squeeze, Tensor.cuda, Tensor.zeros_like,
    List.lookup]

theorem exCgRun : update exCg "v" (1/2) exBatch none =
    (exCgTrace, exBatch, .ok (some (exT 3 false true))) := by
  norm_num [update, loopSteps, iterStep, exCg, exBatch, exT, exCgTrace,
    cudaify, add_err, DiscountedReward.feed, Tensor.add, Tensor.sub,
    Tensor.detach, Tensor.squeeze, Tensor.cuda, Tensor.zeros_like,
    List.lookup]

theorem exLoopRun : loopSteps exC "v" (1/2) false [0] exBatch
    (exT 4 false false) none =
    ([.modelCall 0, .drFeed 0 (exT 1 false false) (exT 0 false false),
      .pgFeed (exT 1 false false) [("v", exT 2 true false)] 0,
      .vmFeed [("v", exT 2 true false), ("target", exT 3 false false)],
      .backward (exT 12 true false)], exBatch,
     .ok (exT 3 false false, some (exT 12 false false))) := by
  norm_num [loopSteps, iterStep, exC, exBatch, exT, cudaify, add_err,
    DiscountedReward.feed, Tensor.add, Tensor.sub, Tensor.detach,
    Tensor.squeeze, Tensor.cuda, Tensor.zeros_like, List.lookup]

/-- Witness for C1 on the concrete successful run. -/
theorem cost_fed_once_with_mean_witness :
    costs exTrace =
      [(backErrHeads exTrace).sum / ((exBatch.s.length : ℚ) - 1)] ∧
    exTrace.countP Event.isBackward = exBatch.s.length - 1 :=
  cost_fed_once_with_mean exC "v" (1/2) exBatch none exTrace exBatch
    (some (exT 3 false false)) (by decide) exRun

/-- Witness for C2 on the concrete successful run. -/
theorem loop_strictly_backward_witness :
    modelCalls exTrace = (exBatch.s.length - 1) ::
      (List.range (exBatch.s.length - 1)).reverse ∧
    exTrace.countP Event.isBackward = exBatch.s.length - 1 ∧
    exTrace.countP Event.isDrFeed = exBatch.s.length - 1 :=
  loop_strictly_backward exC "v" (1/2) exBatch none exTrace exBatch
    (some (exT 3 false false)) (by decide) exRun

/-- Witness for C3 on the concrete successful run. -/
theorem advantage_detached_value_fed_witness :
    advObligation "v" exTrace = true ∧
    exTrace.countP Event.isPgFeed = exBatch.s.length - 1 :=
  advantage_detached_value_fed exC "v" (1/2) exBatch none exTrace exBatch
    (some (exT 3 false false)) exRun

/-- Witness for the amended C4 on the concrete successful run. -/
theorem reward_routed_terminal_as_is_witness :
    drFeedRouting (exT 4 true false).is_cuda exBatch exTrace = true :=
  reward_routed_terminal_as_is exC "v" (1/2) exBatch none exTrace exBatch
    (some (exT 3 false false)) [("v", exT 4 true false)] (exT 4 true false)
    rfl rfl exRun

/-- Witness for C5 on the concrete `T = 1` run. -/
theorem T1_fails_deterministically_witness :
    update exC "v" (1/2) exBatch1 none =
      ([.modelCall 0, .setR ((exT 2 true false).squeeze.detach)], exBatch1,
        .error .noneSubscript) ∧
    (update exC "v" (1/2) exBatch1 none).1.countP Event.isBackward = 0 ∧
    (update exC "v" (1/2) exBatch1 none).1.countP Event.isCostFeed = 0 :=
  T1_fails_deterministically exC "v" (1/2) exBatch1 none
    [("v", exT 2 true false)] (exT 2 true false) rfl rfl rfl

/-- Witness for C6 on the concrete run with a raising value matcher. -/
theorem collaborator_error_propagates_witness :
    exFailTrace.countP Event.isCostFeed = 0 ∧
    ((∃ t, exCfail.model t = .error ()) ∨
     (∃ adv sc t, exCfail.pgFeed adv sc t = .error ()) ∨
     (∃ inp, exCfail.vmFeed inp = .error ())) :=
  collaborator_error_propagates exCfail "v" (1/2) exBatch none exFailTrace
    exBatch () exFailRun

/-- Witness for C7 on the concrete successful run. -/
theorem backward_immediate_per_step_witness :
    loopBlocks (exTrace.drop 2) = true ∧
    exTrace.countP Event.isBackward = exBatch.s.length - 1 :=
  backward_immediate_per_step exC "v" (1/2) exBatch none exTrace exBatch
    (some (exT 3 false false)) exRun

/-- Witness for C8 on the concrete successful run, with two different
incoming estimator states. -/
theorem setR_once_resets_state_witness :
    update exC "v" (1/2) exBatch none =
      update exC "v" (1/2) exBatch (some (exT 9 false false)) ∧
    (update exC "v" (1/2) exBatch none).1.take 2 =
      [.modelCall (exBatch.s.length - 1),
       .setR ((exT 4 true false).squeeze.detach)] ∧
    ((update exC "v" (1/2) exBatch none).1.drop 2).countP
      Event.isSetR = 0 :=
  setR_once_resets_state exC "v" (1/2) exBatch [("v", exT 4 true false)]
    (exT 4 true false) none (some (exT 9 false false)) rfl rfl

/-- Witness for C10 on the concrete one-iteration loop run. -/
theorem tot_allocated_after_loop_witness :
    (some (exT 12 false false)).isSome = true ∧
    isNoneSubscriptRes (update exC "v" (1/2) exBatch none).2.2 = false :=
  tot_allocated_after_loop exC "v" (1/2) false 0 [] exBatch
    (exT 4 false false)
    [.modelCall 0, .drFeed 0 (exT 1 false false) (exT 0 false false),
     .pgFeed (exT 1 false false) [("v", exT 2 true false)] 0,
     .vmFeed [("v", exT 2 true false), ("target", exT 3 false false)],
     .backward (exT 12 true false)] exBatch (exT 3 false false)
    (some (exT 12 false false)) exBatch none (by decide) exLoopRun

/-- C4 (counterexample): a concrete run in which the terminal-step value
tensor resides on the accelerator, so the inferred placement is the
accelerator, yet the terminal-flag tensor fed to the return estimator is
`batch["terminal"][0]` unchanged and host-resident — it is not routed
through the placement decision, while the reward fed on the very same call
was moved.  This refutes the claim that both per-step tensors are moved to
the inferred device. -/
theorem terminal_not_moved_cex :
    exCg.model 1 = .ok [("v", exT 4 true true)] ∧
    (exT 4 true true).is_cuda = true ∧
    Event.drFeed 0 (exT 1 false true) (exT 0 false false) ∈
      (update exCg "v" (1/2) exBatch none).1 ∧
    exBatch.terminal[0]? = some (exT 0 false false) ∧
    (exT 0 false false).is_cuda = false ∧
    cudaify true (exT 0 false false) ≠ exT 0 false false := by
  refine ⟨rfl, rfl, ?_, rfl, rfl, ?_⟩
  · rw [exCgRun]
    simp [exCgTrace]
  · intro hcontra
    have hq := congrArg Tensor.is_cuda hcontra
    simp [cudaify, Tensor.cuda, exT] at hq
